import Mathlib

/-!
Verification of the sonic-client library (wire-protocol connection engine and
connection pool) against its natural-language specification.

The Go sources are shallowly embedded:
* strings are modelled as `List Char` (for the escaping codec) or as
  `List Nat` byte lists (for the byte-oriented chunker `splitText`);
* the possibly non-terminating chunking loop is given an explicit fuel
  parameter, `none` meaning "the loop has not terminated within the fuel";
* the connection pool (`ConnPool`) is modelled as a pure state machine;
  dial attempts and socket I/O are supplied as explicit outcome arguments;
* machine integers are modelled as `Nat`/`Int` (the pool's counters are far
  from the `uint32` wrap-around in every scenario considered here).
-/

deriving instance DecidableEq for Except

namespace Sonic

/-! ## Generic list helpers -/

/-- Concatenation-map on lists, used to state that the escaping pass acts
independently on each character. -/
def cmap (f : α → List β) : List α → List β
  | [] => []
  | a :: l => f a ++ cmap f l

theorem cmap_append (f : α → List β) (l₁ l₂ : List α) :
    cmap f (l₁ ++ l₂) = cmap f l₁ ++ cmap f l₂ := by
  induction l₁ with
  | nil => rfl
  | cons a l ih => simp [cmap, ih]

theorem cmap_cmap (f : α → List β) (g : β → List γ) (l : List α) :
    cmap g (cmap f l) = cmap (fun a => cmap g (f a)) l := by
  induction l with
  | nil => rfl
  | cons a l ih => simp [cmap, cmap_append, ih]

/-! ## Wire codec: escaping (`patternReplace`, C3)

`strings.Replace(s, old, new, -1)` replaces every non-overlapping occurrence
of `old` in `s` by `new`, scanning left to right.  All patterns used by the
client are non-empty; the empty pattern (for which Go would insert `new`
between characters) is treated as a no-op here since it never occurs. -/

def strReplace [DecidableEq α] (old new : List α) : List α → List α
  | [] => []
  | a :: rest =>
    if h : old ≠ [] ∧ old.isPrefixOf (a :: rest) then
      new ++ strReplace old new (List.drop old.length (a :: rest))
    else
      a :: strReplace old new rest
termination_by s => s.length
decreasing_by
  · simp only [List.length_drop, List.length_cons]
    have : 1 ≤ old.length := List.length_pos.mpr h.1
    omega
  · simp

/-- The three escape patterns of `PATTERNS` (src/unnamed/part_000) and of
`connection.push` (src/connection.go): backslash to double backslash, newline
to backslash-n, double quote to backslash-quote. -/
def PATTERNS : List (List Char × List Char) :=
  [(['\\'], ['\\', '\\']), (['\n'], ['\\', 'n']), (['\"'], ['\\', '\"'])]

/-- Embedding of `patternReplace` (src/unnamed/part_000 lines 78-83): the
three `strings.Replace` passes applied sequentially, left to right. -/
def patternReplace (text : List Char) : List Char :=
  PATTERNS.foldl (fun t p => strReplace p.1 p.2 t) text

/-- Per-character escaping map; `patternReplace` is proved equal to
`cmap escCharGo`, which is the formal sense in which the three passes are
applied once, non-recursively, never re-escaping earlier output. -/
def escCharGo (c : Char) : List Char :=
  if c = '\\' then ['\\', '\\']
  else if c = '\n' then ['\\', 'n']
  else if c = '\"' then ['\\', '\"']
  else [c]

/-- Decoder for the escaped form: the reverse substitution, reading escape
sequences left to right.  Modelled from the spec: the repository contains no
decoder; §8 of the spec describes decoding as "reverse substitution"
recovering the original text. -/
def unescape : List Char → List Char
  | [] => []
  | [a] => [a]
  | a :: b :: rest =>
    if a = '\\' then
      if b = '\\' then '\\' :: unescape rest
      else if b = 'n' then '\n' :: unescape rest
      else if b = '\"' then '\"' :: unescape rest
      else a :: unescape (b :: rest)
    else a :: unescape (b :: rest)

/-- A character list is well escaped when scanning it left to right finds no
raw newline, no raw double quote, and every backslash opening one of the
three escape sequences. -/
def wellEscaped : List Char → Bool
  | [] => true
  | [a] => !(a = '\\' || a = '\n' || a = '\"')
  | a :: b :: rest =>
    if a = '\\' then (b = '\\' || b = 'n' || b = '\"') && wellEscaped rest
    else !(a = '\n' || a = '\"') && wellEscaped (b :: rest)

theorem strReplace_single [DecidableEq α] (a : α) (new : List α) (s : List α) :
    strReplace [a] new s = cmap (fun c => if c = a then new else [c]) s := by
  induction s with
  | nil => rw [strReplace]; rfl
  | cons c rest ih =>
    by_cases hc : c = a
    · subst hc
      rw [strReplace]
      rw [dif_pos (by simp [List.isPrefixOf])]
      simp [cmap, ih]
    · rw [strReplace]
      rw [dif_neg (by simp [List.isPrefixOf]; intro h; exact absurd h.symm hc)]
      simp [cmap, if_neg hc, ih]

theorem patternReplace_eq_cmap (s : List Char) :
    patternReplace s = cmap escCharGo s := by
  show strReplace ['\"'] ['\\', '\"']
      (strReplace ['\n'] ['\\', 'n'] (strReplace ['\\'] ['\\', '\\'] s)) =
      cmap escCharGo s
  rw [strReplace_single, strReplace_single, strReplace_single,
    cmap_cmap, cmap_cmap]
  induction s with
  | nil => rfl
  | cons c rest ih =>
    rw [cmap, cmap, ih]
    congr 1
    by_cases h1 : c = '\\'
    · subst h1; rfl
    · by_cases h2 : c = '\n'
      · subst h2; rfl
      · by_cases h3 : c = '\"'
        · subst h3; rfl
        · simp [escCharGo, cmap, if_neg h1, if_neg h2, if_neg h3]

theorem escCharGo_ne_nil (c : Char) : escCharGo c ≠ [] := by
  unfold escCharGo
  split <;> try simp
  split <;> try simp
  split <;> simp

theorem cmap_escCharGo_eq_nil {s : List Char} (h : cmap escCharGo s = []) :
    s = [] := by
  cases s with
  | nil => rfl
  | cons c rest =>
    exfalso
    rw [cmap] at h
    rcases List.append_eq_nil.mp h with ⟨h1, _⟩
    exact escCharGo_ne_nil c h1

theorem wellEscaped_cmap (s : List Char) :
    wellEscaped (cmap escCharGo s) = true := by
  induction s with
  | nil => rfl
  | cons c rest ih =>
    rw [cmap]
    by_cases h1 : c = '\\'
    · subst h1
      show wellEscaped ('\\' :: '\\' :: cmap escCharGo rest) = true
      rw [wellEscaped]
      simp [ih]
    · by_cases h2 : c = '\n'
      · subst h2
        show wellEscaped ('\\' :: 'n' :: cmap escCharGo rest) = true
        rw [wellEscaped]
        simp [ih]
      · by_cases h3 : c = '\"'
        · subst h3
          show wellEscaped ('\\' :: '\"' :: cmap escCharGo rest) = true
          rw [wellEscaped]
          simp [ih]
        · rw [escCharGo, if_neg h1, if_neg h2, if_neg h3]
          cases hrest : cmap escCharGo rest with
          | nil =>
            show wellEscaped [c] = true
            rw [wellEscaped]
            simp [h1, h2, h3]
          | cons d r3 =>
            show wellEscaped (c :: d :: r3) = true
            rw [wellEscaped, if_neg h1]
            rw [hrest] at ih
            simp [h2, h3, ih]

theorem unescape_cmap (s : List Char) :
    unescape (cmap escCharGo s) = s := by
  induction s with
  | nil => rfl
  | cons c rest ih =>
    rw [cmap]
    by_cases h1 : c = '\\'
    · subst h1
      show unescape ('\\' :: '\\' :: cmap escCharGo rest) = '\\' :: rest
      rw [unescape]
      simp [ih]
    · by_cases h2 : c = '\n'
      · subst h2
        show unescape ('\\' :: 'n' :: cmap escCharGo rest) = '\n' :: rest
        rw [unescape]
        simp [ih]
      · by_cases h3 : c = '\"'
        · subst h3
          show unescape ('\\' :: '\"' :: cmap escCharGo rest) = '\"' :: rest
          rw [unescape]
          simp [ih]
        · rw [escCharGo, if_neg h1, if_neg h2, if_neg h3]
          cases hrest : cmap escCharGo rest with
          | nil =>
            have : rest = [] := cmap_escCharGo_eq_nil hrest
            subst this
            rfl
          | cons d r3 =>
            show unescape (c :: d :: r3) = c :: rest
            rw [unescape, if_neg h1]
            rw [hrest] at ih
            simp [ih]

/-- C3: the pre-transmission escaping (three sequential left-to-right
passes, backslash then newline then double quote) leaves no unescaped
backslash, newline or double quote in its output; it acts on each input
character exactly once (it equals a per-character map, so output of an
earlier substitution is never re-escaped); and the reverse substitution
recovers the original payload exactly. -/
theorem patternReplace_escaping_correct (s : List Char) :
    wellEscaped (patternReplace s) = true ∧
    patternReplace s = cmap escCharGo s ∧
    unescape (patternReplace s) = s := by
  refine ⟨?_, patternReplace_eq_cmap s, ?_⟩
  · rw [patternReplace_eq_cmap]; exact wellEscaped_cmap s
  · rw [patternReplace_eq_cmap]; exact unescape_cmap s

/-! ## Wire codec: chunking (`splitText`, C4 and C9)

`splitText` (src/connection.go lines 195-207; the method form
`Conn.splitText` in src/unnamed/part_001 lines 275-287 is the same loop with
`maxLen = cmdMaxBytes/2`) slices a string by bytes.  Strings are modelled as
byte lists (`List Nat`).  The outer `for` loop can fail to make progress, so
it takes explicit fuel; `none` means the loop has not terminated within the
given fuel.  `utf8.RuneStart(b)` is `b&0xC0 != 0x80`. -/

def runeStart (b : Nat) : Bool := b &&& 0xC0 != 0x80

/-- The inner backward scan `for !utf8.RuneStart(longString[r]) { r-- }`.
At index 0 the scan stops: on the inputs appearing in the theorems below the
first byte is always a rune start (Go would panic with a negative index
otherwise). -/
def backToRuneStart (s : List Nat) : Nat → Nat
  | 0 => 0
  | r + 1 => if runeStart (s.getD (r + 1) 0) then r + 1 else backToRuneStart s r

/-- Go's `s[l:r]` (for `l ≤ r ≤ len s`, the only way it is used here). -/
def goSlice (s : List Nat) (l r : Nat) : List Nat := (s.take r).drop l

/-- One state of the `splitText` loop: `l`, `r`, and the accumulated
`splits`; the fuel bounds the number of iterations still allowed. -/
def splitLoop (s : List Nat) (maxLen : Nat) :
    Nat → Nat → Nat → List (List Nat) → Option (List (List Nat))
  | 0, _, _, _ => none
  | fuel + 1, l, r, acc =>
    if r < s.length then
      splitLoop s maxLen fuel (backToRuneStart s r)
        (backToRuneStart s r + maxLen) (acc ++ [goSlice s l (backToRuneStart s r)])
    else
      some (acc ++ [s.drop l])

/-- Embedding of `splitText(longString, maxLen)`: `l, r = 0, maxLen`, loop
while `r < len`, move `r` back to a rune start, emit `s[l:r]`, advance
`l, r = r, r+maxLen`; finally emit `s[l:]`. -/
def splitText (s : List Nat) (maxLen : Nat) (fuel : Nat) :
    Option (List (List Nat)) :=
  splitLoop s maxLen fuel 0 maxLen []

/-- A well-formed UTF-8 character as a byte list: non-empty, at most four
bytes, its first byte a rune start and all following bytes continuation
bytes. -/
def isChar (c : List Nat) : Prop :=
  c ≠ [] ∧ c.length ≤ 4 ∧ runeStart (c.headD 0) = true ∧
    ∀ b ∈ c.tail, runeStart b = false

instance (c : List Nat) : Decidable (isChar c) := by
  unfold isChar; infer_instance

/-- Position `p` is a character boundary of the decomposition `cs`. -/
def Boundary (cs : List (List Nat)) (p : Nat) : Prop :=
  ∃ cs1 cs2, cs = cs1 ++ cs2 ∧ p = cs1.flatten.length

theorem Boundary.zero (cs : List (List Nat)) : Boundary cs 0 :=
  ⟨[], cs, rfl, rfl⟩

theorem getD_append_left {a b : List Nat} {p : Nat} (h : p < a.length) :
    (a ++ b).getD p 0 = a.getD p 0 := by
  induction a generalizing p with
  | nil => simp at h
  | cons x xs ih =>
    cases p with
    | zero => rfl
    | succ q =>
      simp only [List.length_cons, Nat.succ_lt_succ_iff] at h
      simpa using ih h

theorem getD_append_right {a b : List Nat} {p : Nat} (h : a.length ≤ p) :
    (a ++ b).getD p 0 = b.getD (p - a.length) 0 := by
  induction a generalizing p with
  | nil => simp
  | cons x xs ih =>
    cases p with
    | zero => simp at h
    | succ q =>
      simp only [List.length_cons, Nat.succ_le_succ_iff] at h
      simpa using ih h

theorem getD_mem {l : List Nat} {k : Nat} (h : k < l.length) :
    l.getD k 0 ∈ l := by
  induction l generalizing k with
  | nil => simp at h
  | cons x xs ih =>
    cases k with
    | zero => simp
    | succ q =>
      simp only [List.length_cons, Nat.succ_lt_succ_iff] at h
      simpa using Or.inr (ih h)

/-- Byte classification: inside a well-formed character decomposition, the
rune-start bytes are exactly the character boundaries. -/
theorem runeStart_iff_boundary (cs : List (List Nat))
    (hcs : ∀ c ∈ cs, isChar c) (p : Nat) (hp : p < cs.flatten.length) :
    runeStart (cs.flatten.getD p 0) = true ↔ Boundary cs p := by
  induction cs generalizing p with
  | nil => simp at hp
  | cons c cs' ih =>
    have hc : isChar c := hcs c (by simp)
    have hcs' : ∀ x ∈ cs', isChar x := fun x hx => hcs x (by simp [hx])
    rw [List.flatten_cons] at hp ⊢
    by_cases hlt : p < c.length
    · rw [getD_append_left hlt]
      cases p with
      | zero =>
        have hhead : c.getD 0 0 = c.headD 0 := by cases c <;> rfl
        rw [hhead]
        simp only [hc.2.2.1, true_iff]
        exact Boundary.zero _
      | succ k =>
        have hmem : c.getD (k + 1) 0 ∈ c.tail := by
          cases c with
          | nil => simp at hlt
          | cons x xs =>
            simp only [List.length_cons, Nat.succ_lt_succ_iff] at hlt
            simpa using getD_mem hlt
        have hfalse := hc.2.2.2 _ hmem
        rw [hfalse]
        simp only [Bool.false_eq_true, false_iff]
        rintro ⟨cs1, cs2, heq, hlen⟩
        cases cs1 with
        | nil =>
          simp only [List.flatten_nil, List.length_nil] at hlen
          omega
        | cons d ds =>
          injection heq with hd htail
          subst hd
          rw [List.flatten_cons, List.length_append] at hlen
          omega
    · push_neg at hlt
      rw [getD_append_right hlt]
      have hp' : p - c.length < cs'.flatten.length := by
        rw [List.length_append] at hp; omega
      rw [ih hcs' _ hp']
      constructor
      · rintro ⟨cs1, cs2, heq, hlen⟩
        exact ⟨c :: cs1, cs2, by rw [heq, List.cons_append], by
          simp only [List.flatten_cons, List.length_append]; omega⟩
      · rintro ⟨cs1, cs2, heq, hlen⟩
        cases cs1 with
        | nil =>
          exfalso
          have : c ≠ [] := hc.1
          have hclen : 1 ≤ c.length := List.length_pos.mpr this
          simp only [List.flatten_nil, List.length_nil] at hlen
          omega
        | cons d ds =>
          injection heq with hd htail
          subst hd
          refine ⟨ds, cs2, htail, ?_⟩
          rw [List.flatten_cons, List.length_append] at hlen
          omega

/-- The next boundary after a boundary `p` lies at most four bytes away. -/
theorem next_boundary (cs : List (List Nat)) (hcs : ∀ c ∈ cs, isChar c)
    (p : Nat) (hb : Boundary cs p) (hp : p < cs.flatten.length) :
    ∃ q, Boundary cs q ∧ p < q ∧ q ≤ p + 4 := by
  obtain ⟨cs1, cs2, heq, hlen⟩ := hb
  cases cs2 with
  | nil =>
    exfalso
    rw [heq, List.append_nil] at hp
    omega
  | cons c cs2' =>
    have hc : isChar c := hcs c (by rw [heq]; simp)
    refine ⟨p + c.length, ⟨cs1 ++ [c], cs2', by rw [heq]; simp, ?_⟩, ?_, ?_⟩
    · simp only [List.flatten_append, List.length_append, List.flatten_cons,
        List.flatten_nil, List.append_nil]
      omega
    · have : 1 ≤ c.length := List.length_pos.mpr hc.1
      omega
    · have := hc.2.1
      omega

/-- The backward scan returns the largest boundary at or below `r`. -/
theorem backToRuneStart_spec (cs : List (List Nat))
    (hcs : ∀ c ∈ cs, isChar c) (r : Nat) (hr : r < cs.flatten.length) :
    Boundary cs (backToRuneStart cs.flatten r) ∧
    backToRuneStart cs.flatten r ≤ r ∧
    ∀ q, Boundary cs q → q ≤ r → q ≤ backToRuneStart cs.flatten r := by
  induction r with
  | zero =>
    simp only [backToRuneStart]
    refine ⟨Boundary.zero _, Nat.le_refl _, ?_⟩
    intro q _ hq
    exact hq
  | succ r' ih =>
    rw [backToRuneStart]
    by_cases hstart : runeStart (cs.flatten.getD (r' + 1) 0) = true
    · rw [if_pos hstart]
      refine ⟨(runeStart_iff_boundary cs hcs _ hr).mp hstart, Nat.le_refl _,
        fun q _ hq => hq⟩
    · rw [if_neg hstart]
      have hnb : ¬ Boundary cs (r' + 1) := fun hb =>
        hstart ((runeStart_iff_boundary cs hcs _ hr).mpr hb)
      have hr' : r' < cs.flatten.length := Nat.lt_of_succ_lt hr
      obtain ⟨h1, h2, h3⟩ := ih hr'
      refine ⟨h1, Nat.le_succ_of_le h2, fun q hq hqr => ?_⟩
      have : q ≠ r' + 1 := fun h => hnb (h ▸ hq)
      exact h3 q hq (by omega)

/-- Two splittings of the same character list align: the one whose front
part flattens to fewer bytes is a prefix of the other (character lists are
non-empty, so byte counts determine the cut). -/
theorem align_decomp (cs1 : List (List Nat)) (hne : ∀ c ∈ cs1, c ≠ []) :
    ∀ cs2 cs1'' cs2'' : List (List Nat), cs1 ++ cs2 = cs1'' ++ cs2'' →
      cs1.flatten.length ≤ cs1''.flatten.length →
      ∃ mid, cs1'' = cs1 ++ mid ∧ cs2 = mid ++ cs2'' := by
  induction cs1 with
  | nil =>
    intro cs2 cs1'' cs2'' heq _
    exact ⟨cs1'', rfl, by simpa using heq⟩
  | cons a t ih =>
    intro cs2 cs1'' cs2'' heq hlen
    cases cs1'' with
    | nil =>
      exfalso
      have ha : a ≠ [] := hne a (by simp)
      have : 1 ≤ a.length := List.length_pos.mpr ha
      simp only [List.flatten_cons, List.length_append, List.flatten_nil,
        List.length_nil] at hlen
      omega
    | cons b t'' =>
      simp only [List.cons_append] at heq
      injection heq with hab htail
      subst hab
      simp only [List.flatten_cons, List.length_append] at hlen
      obtain ⟨mid, h1, h2⟩ := ih (fun c hc => hne c (by simp [hc])) _ _ _
        htail (by omega)
      exact ⟨mid, by rw [h1, List.cons_append], h2⟩

theorem getLastD_irrel {l : List α} (h : l ≠ []) (d1 d2 : α) :
    l.getLastD d1 = l.getLastD d2 := by
  cases l with
  | nil => exact absurd rfl h
  | cons a t => rw [List.getLastD_cons, List.getLastD_cons]

theorem flatten_map_flatten (css : List (List (List Nat))) :
    (css.map List.flatten).flatten = css.flatten.flatten := by
  induction css with
  | nil => rfl
  | cons c t ih => simp [List.flatten_cons, List.flatten_append, ih]

/-- Master lemma for the `splitText` loop: started at a character boundary,
with maximal character width (4) at most the target length, the loop
terminates within the remaining byte count of fuel and emits chunks that
are concatenations of whole characters covering exactly the remaining
suffix, the final chunk at most `maxLen` bytes long. -/
theorem splitLoop_master (cs : List (List Nat)) (hcs : ∀ c ∈ cs, isChar c)
    (maxLen : Nat) (hml : 4 ≤ maxLen) :
    ∀ fuel cs1 cs2 acc, cs = cs1 ++ cs2 →
      cs.flatten.length - cs1.flatten.length < fuel →
      ∃ css, css ≠ [] ∧
        splitLoop cs.flatten maxLen fuel cs1.flatten.length
            (cs1.flatten.length + maxLen) acc
          = some (acc ++ css.map List.flatten) ∧
        css.flatten = cs2 ∧
        ((css.getLastD []).flatten).length ≤ maxLen := by
  intro fuel
  induction fuel with
  | zero =>
    intro cs1 cs2 acc _ hfuel
    omega
  | succ f ih =>
    intro cs1 cs2 acc heq hfuel
    have hlen_eq : cs.flatten.length
        = cs1.flatten.length + cs2.flatten.length := by
      rw [heq, List.flatten_append, List.length_append]
    rw [splitLoop]
    by_cases hr : cs1.flatten.length + maxLen < cs.flatten.length
    · rw [if_pos hr]
      have hlts : cs1.flatten.length < cs.flatten.length := by omega
      have hbl : Boundary cs cs1.flatten.length := ⟨cs1, cs2, heq, rfl⟩
      obtain ⟨q, hqb, hql, hq4⟩ := next_boundary cs hcs _ hbl hlts
      obtain ⟨hb2, hle2, hmax2⟩ := backToRuneStart_spec cs hcs _ hr
      have hqr2 : q ≤ backToRuneStart cs.flatten (cs1.flatten.length + maxLen) :=
        hmax2 q hqb (by omega)
      have hlr2 : cs1.flatten.length
          < backToRuneStart cs.flatten (cs1.flatten.length + maxLen) := by
        omega
      obtain ⟨cs1'', cs2'', heq2, hlen2⟩ := hb2
      have hne1 : ∀ c ∈ cs1, c ≠ [] := fun c hc =>
        (hcs c (by rw [heq]; exact List.mem_append_left _ hc)).1
      obtain ⟨mid, hmid1, hmid2⟩ := align_decomp cs1 hne1 cs2 cs1'' cs2''
        (heq ▸ heq2) (by omega)
      have hmidlen : cs1''.flatten.length
          = cs1.flatten.length + mid.flatten.length := by
        rw [hmid1, List.flatten_append, List.length_append]
      have hslice : goSlice cs.flatten cs1.flatten.length
          (backToRuneStart cs.flatten (cs1.flatten.length + maxLen))
          = mid.flatten := by
        have hs : cs.flatten = (cs1.flatten ++ mid.flatten) ++ cs2''.flatten := by
          rw [heq2, hmid1]
          simp [List.flatten_append, List.append_assoc]
        rw [goSlice, hlen2, hmidlen]
        conv_lhs => rw [hs]
        rw [List.take_left' (by rw [List.length_append])]
        exact List.drop_left _ _
      obtain ⟨css', hcss'ne, hloop, hflat, hlast⟩ := ih (cs1 ++ mid) cs2''
        (acc ++ [mid.flatten]) (by rw [heq2, hmid1, List.append_assoc])
        (by rw [List.flatten_append, List.length_append]; omega)
      refine ⟨mid :: css', by simp, ?_, ?_, ?_⟩
      · rw [hslice]
        have harg : (cs1 ++ mid).flatten.length
            = backToRuneStart cs.flatten (cs1.flatten.length + maxLen) := by
          rw [List.flatten_append, List.length_append]
          omega
        rw [harg] at hloop
        rw [hloop, List.map_cons]
        simp [List.append_assoc]
      · rw [List.flatten_cons, hflat, hmid2]
      · have : (mid :: css').getLastD [] = css'.getLastD [] := by
          rw [List.getLastD_cons]
          exact getLastD_irrel hcss'ne mid []
        rw [this]
        exact hlast
    · rw [if_neg hr]
      refine ⟨[cs2], by simp, ?_, by simp, ?_⟩
      · have hdrop : cs.flatten.drop cs1.flatten.length = cs2.flatten := by
          rw [heq, List.flatten_append]
          exact List.drop_left _ _
        rw [hdrop]
        simp
      · simp only [List.getLastD_cons]
        have : cs2.flatten.length = cs.flatten.length - cs1.flatten.length := by
          omega
        simp only [List.getLastD_nil]
        omega

theorem map_getLastD (f : α → β) : ∀ (l : List α) (a : α),
    (l.map f).getLastD (f a) = f (l.getLastD a) := by
  intro l
  induction l with
  | nil => intro a; rfl
  | cons x t ih =>
    intro a
    rw [List.map_cons, List.getLastD_cons, List.getLastD_cons, ih]

/-- With target length 0 (`cmdMaxBytes ≤ 1`) and a non-empty payload, the
`splitText` loop repeats the state `l = r = 0` forever: no fuel suffices. -/
theorem splitLoop_zero_diverges (s : List Nat) (hs : s ≠ []) :
    ∀ fuel acc, splitLoop s 0 fuel 0 0 acc = none := by
  intro fuel
  induction fuel with
  | zero => intro acc; rfl
  | succ f ih =>
    intro acc
    rw [splitLoop]
    rw [if_pos (List.length_pos.mpr hs)]
    have h0 : backToRuneStart s 0 = 0 := rfl
    rw [h0]
    exact ih _

theorem splitText_zero_diverges (s : List Nat) (hs : s ≠ []) (fuel : Nat) :
    splitText s 0 fuel = none :=
  splitLoop_zero_diverges s hs fuel []

/-- With target length 2 and the 4-byte character `U+1D11E` straddling the
second chunk boundary, the loop repeats the state `l = 2, r = 4` forever. -/
theorem splitLoop_straddle_diverges :
    ∀ fuel acc, splitLoop [0x61, 0x62, 0xF0, 0x9D, 0x84, 0x9E] 2 fuel 2 4 acc
      = none := by
  intro fuel
  induction fuel with
  | zero => intro acc; rfl
  | succ f ih =>
    intro acc
    rw [splitLoop]
    rw [if_pos (by decide)]
    have h4 : backToRuneStart [0x61, 0x62, 0xF0, 0x9D, 0x84, 0x9E] 4 = 2 := by
      decide
    rw [h4]
    exact ih _

theorem splitText_straddle_diverges (fuel : Nat) :
    splitText [0x61, 0x62, 0xF0, 0x9D, 0x84, 0x9E] 2 fuel = none := by
  cases fuel with
  | zero => rfl
  | succ f =>
    rw [splitText, splitLoop]
    rw [if_pos (by decide)]
    have h2 : backToRuneStart [0x61, 0x62, 0xF0, 0x9D, 0x84, 0x9E] 2 = 2 := by
      decide
    rw [h2]
    exact splitLoop_straddle_diverges f _

/-- C4 (amended): for a payload made of well-formed UTF-8 characters and a
target length of at least 4 bytes (the maximal character width),
`splitText` terminates, each chunk is a concatenation of whole characters
(so no chunk boundary falls inside a multi-byte character), the in-order
concatenation of the chunks is exactly the input, and the final chunk is at
most the target length.  (The unamended claim, universal over all payloads
and target lengths, fails: see the counterexample below.) -/
theorem splitText_chunks_correct (cs : List (List Nat)) (maxLen : Nat)
    (hcs : ∀ c ∈ cs, isChar c) (hml : 4 ≤ maxLen) :
    ∃ (chunks : List (List Nat)) (css : List (List (List Nat))),
      splitText cs.flatten maxLen (cs.flatten.length + 1) = some chunks ∧
      chunks = css.map List.flatten ∧
      css.flatten = cs ∧
      chunks.flatten = cs.flatten ∧
      (chunks.getLastD []).length ≤ maxLen := by
  obtain ⟨css, hne, hloop, hflat, hlast⟩ :=
    splitLoop_master cs hcs maxLen hml (cs.flatten.length + 1) [] cs []
      rfl (by simp)
  rw [show (([] : List (List Nat)).flatten.length) = 0 from rfl,
    Nat.zero_add] at hloop
  refine ⟨css.map List.flatten, css, ?_, rfl, hflat, ?_, ?_⟩
  · rw [splitText, hloop, List.nil_append]
  · rw [flatten_map_flatten, hflat]
  · have : (css.map List.flatten).getLastD [] = (css.getLastD []).flatten := by
      have := map_getLastD List.flatten css []
      simpa using this
    rw [this]
    exact hlast

/-- C4 counterexample: as stated (for every payload and every negotiated
command size) the claim fails.  With payload byte `0x61` (`"a"`) and target
length `cmdMaxBytes/2 = 0` the split loop never terminates, so no chunk
list is produced at all. -/
theorem splitText_total_claim_false :
    ¬ ∃ fuel chunks, splitText [0x61] 0 fuel = some chunks := by
  rintro ⟨fuel, chunks, h⟩
  rw [splitText_zero_diverges [0x61] (by decide) fuel] at h
  exact Option.noConfusion h

/-- Witness for the amended C4 at the two-character payload `"hi"` with
target length 4. -/
theorem splitText_chunks_correct_witness :
    (∀ c ∈ [[0x68], [0x69]], isChar c) ∧ (4 ≤ 4) ∧
    ∃ (chunks : List (List Nat)) (css : List (List (List Nat))),
      splitText ([[0x68], [0x69]] : List (List Nat)).flatten 4
          (([[0x68], [0x69]] : List (List Nat)).flatten.length + 1)
        = some chunks ∧
      chunks = css.map List.flatten ∧
      css.flatten = [[0x68], [0x69]] ∧
      chunks.flatten = ([[0x68], [0x69]] : List (List Nat)).flatten ∧
      (chunks.getLastD []).length ≤ 4 :=
  ⟨by decide, by decide,
    splitText_chunks_correct [[0x68], [0x69]] 4 (by decide) (by decide)⟩

/-- C9 (amended): `splitText` terminates for every well-formed-UTF-8
payload once the target length is at least 4 (the maximal character width);
with target length 0 — which the callers produce whenever `cmdMaxBytes ≤ 1`
— and a non-empty payload it never terminates; and it never terminates when
a multi-byte character wider than the target length straddles a chunk
boundary (here the 4-byte `U+1D11E` with target length 2). -/
theorem splitText_termination :
    (∀ (cs : List (List Nat)) (maxLen : Nat), (∀ c ∈ cs, isChar c) →
      4 ≤ maxLen →
      ∃ chunks,
        splitText cs.flatten maxLen (cs.flatten.length + 1) = some chunks) ∧
    (∀ s : List Nat, s ≠ [] → ∀ fuel, splitText s 0 fuel = none) ∧
    (∀ fuel, splitText [0x61, 0x62, 0xF0, 0x9D, 0x84, 0x9E] 2 fuel = none) := by
  refine ⟨?_, splitText_zero_diverges, splitText_straddle_diverges⟩
  intro cs maxLen hcs hml
  obtain ⟨css, _, hloop, _, _⟩ :=
    splitLoop_master cs hcs maxLen hml (cs.flatten.length + 1) [] cs []
      rfl (by simp)
  rw [show (([] : List (List Nat)).flatten.length) = 0 from rfl,
    Nat.zero_add] at hloop
  refine ⟨css.map List.flatten, ?_⟩
  rw [splitText, hloop, List.nil_append]

/-- C9 counterexample to the unamended claim: with target length 0 but an
empty payload the loop body never runs, so `splitText` terminates (with one
empty chunk) even at target length 0. -/
theorem splitText_empty_zero_terminates :
    splitText ([] : List Nat) 0 1 = some [[]] := rfl

/-- Witness for C9 at concrete inputs. -/
theorem splitText_termination_witness :
    (∀ c ∈ [[0x61], [0xC3, 0xA9]], isChar c) ∧
    (∃ chunks,
      splitText ([[0x61], [0xC3, 0xA9]] : List (List Nat)).flatten 4
          (([[0x61], [0xC3, 0xA9]] : List (List Nat)).flatten.length + 1)
        = some chunks) ∧
    splitText [0x61] 0 9 = none ∧
    splitText [0x61, 0x62, 0xF0, 0x9D, 0x84, 0x9E] 2 9 = none :=
  ⟨by decide,
    splitText_termination.1 [[0x61], [0xC3, 0xA9]] 4 (by decide) (by decide),
    splitText_termination.2.1 [0x61] (by decide) 9,
    splitText_termination.2.2 9⟩

/-! ## Response parsing (C7, C8, C10)

Protocol lines are modelled as `List Char`.  `goSplit` is
`strings.Split(s, sep)` for a one-character separator (empty fields kept);
`fieldsFunc` is Go's `strings.FieldsFunc` (only non-empty fields);
`atoiGo` is `strconv.Atoi` (optional sign, then digits; the int64 overflow
bound is not modelled, all values here are small). -/

def goSplit (sep : Char) : List Char → List (List Char)
  | [] => [[]]
  | c :: rest =>
    if c = sep then [] :: goSplit sep rest
    else
      match goSplit sep rest with
      | [] => [[c]]
      | t :: ts => (c :: t) :: ts

def fieldsAux (p : Char → Bool) : List Char → List Char → List (List Char)
  | [], cur => if cur = [] then [] else [cur.reverse]
  | c :: rest, cur =>
    if p c then
      if cur = [] then fieldsAux p rest [] else cur.reverse :: fieldsAux p rest []
    else fieldsAux p rest (c :: cur)

def fieldsFunc (p : Char → Bool) (s : List Char) : List (List Char) :=
  fieldsAux p s []

/-- ASCII fragment of Go's `unicode.IsSpace` (the protocol lines involved
are ASCII). -/
def isSpaceGo (c : Char) : Bool :=
  c = ' ' || c = '\t' || c = '\n' || c.toNat = 11 || c.toNat = 12 || c = '\r'

/-- The separator predicate of the `STARTED` parser in `NewConn`
(src/unnamed/part_001 lines 97-102) and `connection.read`
(src/connection.go lines 156-161): whitespace or parentheses. -/
def sepStarted (c : Char) : Bool := isSpaceGo c || c = '(' || c = ')'

def digitsVal (l : List Char) : Option Int :=
  if l = [] then none
  else if l.all Char.isDigit then
    some (l.foldl (fun acc c => acc * 10 + ((c.toNat : Int) - 48)) 0)
  else none

def atoiGo : List Char → Option Int
  | '+' :: rest => digitsVal rest
  | '-' :: rest => (digitsVal rest).map (fun n => -n)
  | l => digitsVal l

/-- Embedding of `getSearchResults` (src/connection.go lines 360-365): on an
`EVENT <kind>` prefix match the code takes `strings.Split(line, " ")[3:]`;
Go's slice `[3:]` panics when the split has fewer than three fields, which
is modelled as `none`. -/
def getSearchResults (line eventType : List Char) : Option (List (List Char)) :=
  if ("EVENT ".toList ++ eventType).isPrefixOf line then
    if 3 ≤ (goSplit ' ' line).length then some ((goSplit ' ' line).drop 3)
    else none
  else some []

/-- Outcome of the `NewConn` handshake (src/unnamed/part_001 lines 75-110):
a usable connection with its negotiated `cmdMaxBytes`, an error return, or
a Go panic (`ss[len(ss)-1]` on an empty field list). -/
inductive HandshakeOutcome where
  | ok (maxCommandBytes : Int)
  | err
  | panicked
  deriving DecidableEq

/-- Embedding of the protocol part of `NewConn`: read one line and discard
it (the acknowledgement; its read error is overwritten), read a second
line (an `ERR ` line or missing line is an error), split it on whitespace
and parentheses, and parse the last field as the negotiated size; a
non-integer trailing field is an error.  `lines` is the incoming line
stream. -/
def newConnHandshake (lines : List (List Char)) : HandshakeOutcome :=
  match lines with
  | _ack :: l2 :: _ =>
    if ("ERR ".toList).isPrefixOf l2 then .err
    else
      match (fieldsFunc sepStarted l2).getLast? with
      | none => .panicked
      | some f =>
        match atoiGo f with
        | none => .err
        | some n => .ok n
  | _ => .err

/-- Outcome of parsing a `RESULT <n>` reply in `connection.Count`
(src/connection.go lines 253-265) and in `IngestClient.Count`, `FlushB`,
`FlushC`, `FlushO` (src/unnamed/part_000): all five slice the reply as
`r[7:]` and run `strconv.Atoi` on the rest. -/
inductive CountOutcome where
  | ok (n : Int)
  | err
  | panicked
  deriving DecidableEq

/-- Embedding of the count/flush reply handling: `read` surfaces an `ERR `
line as an error before the slice is taken; otherwise `r[7:]` panics on a
reply shorter than 7 bytes, and the remainder goes to `strconv.Atoi`. -/
def countResponse (r : List Char) : CountOutcome :=
  if ("ERR ".toList).isPrefixOf r then .err
  else if r.length < 7 then .panicked
  else
    match atoiGo (r.drop 7) with
    | none => .err
    | some n => .ok n

/-- C7 (amended): on an event line whose kind matches, and which has at
least three space-separated fields, the result list is the fields after the
third one (`PENDING abc123` then `EVENT QUERY abc123 id1 id2 id3` yields
`[id1, id2, id3]`); on a kind mismatch (`EVENT SUGGEST xyz w1 w2` for a
`QUERY`) the result is the empty list with no error.  (The unamended claim
omits the three-field requirement; with fewer fields the `[3:]` slice
panics — see the counterexample.) -/
theorem getSearchResults_spec :
    getSearchResults ("EVENT QUERY abc123 id1 id2 id3".toList) ("QUERY".toList)
      = some ["id1".toList, "id2".toList, "id3".toList] ∧
    getSearchResults ("EVENT SUGGEST xyz w1 w2".toList) ("QUERY".toList)
      = some [] ∧
    (∀ line kind : List Char,
      ¬ (("EVENT ".toList ++ kind).isPrefixOf line = true) →
      getSearchResults line kind = some []) ∧
    (∀ line kind : List Char,
      ("EVENT ".toList ++ kind).isPrefixOf line = true →
      3 ≤ (goSplit ' ' line).length →
      getSearchResults line kind = some ((goSplit ' ' line).drop 3)) := by
  refine ⟨by decide, by decide, ?_, ?_⟩
  · intro line kind h
    rw [getSearchResults, if_neg h]
  · intro line kind h h3
    rw [getSearchResults, if_pos h, if_pos h3]

/-- C7 counterexample: the claim as stated implies that a matching event
line always yields the tokens after the third field (here none, so `[]`),
but on the two-field line `EVENT QUERY` the code's `[3:]` slice is out of
range and panics instead. -/
theorem getSearchResults_short_line_panics :
    getSearchResults ("EVENT QUERY".toList) ("QUERY".toList) = none ∧
    getSearchResults ("EVENT QUERY".toList) ("QUERY".toList) ≠ some [] := by
  decide

/-- Witness for C7 on the two spec scenarios and a mismatching line. -/
theorem getSearchResults_spec_witness :
    getSearchResults ("EVENT QUERY abc123 id1 id2 id3".toList) ("QUERY".toList)
      = some ["id1".toList, "id2".toList, "id3".toList] ∧
    (¬ (("EVENT ".toList ++ "QUERY".toList).isPrefixOf
        ("EVENT SUGGEST xyz w1 w2".toList) = true)) ∧
    getSearchResults ("EVENT SUGGEST xyz w1 w2".toList) ("QUERY".toList)
      = some [] ∧
    getSearchResults ("EVENT QUERY a b c".toList) ("QUERY".toList)
      = some ((goSplit ' ' ("EVENT QUERY a b c".toList)).drop 3) :=
  ⟨getSearchResults_spec.1,
    by decide,
    getSearchResults_spec.2.2.1 ("EVENT SUGGEST xyz w1 w2".toList)
      ("QUERY".toList) (by decide),
    getSearchResults_spec.2.2.2 ("EVENT QUERY a b c".toList) ("QUERY".toList)
      (by decide) (by decide)⟩

/-- C8: `NewConn` discards one acknowledgement line, splits the second line
on whitespace and parentheses and parses the trailing field as the
negotiated command size — `STARTED search protocol(1) buffer(20000)` yields
`maxCommandBytes = 20000` — and when the trailing field is not an integer
an error is returned and no usable connection is produced. -/
theorem newConnHandshake_spec :
    newConnHandshake ["CONNECTED <sonic-server v1.3.0>".toList,
      "STARTED search protocol(1) buffer(20000)".toList] = .ok 20000 ∧
    (∀ (ack l2 : List Char) (rest : List (List Char)) (f : List Char),
      ¬ (("ERR ".toList).isPrefixOf l2 = true) →
      (fieldsFunc sepStarted l2).getLast? = some f →
      atoiGo f = none →
      newConnHandshake (ack :: l2 :: rest) = .err) := by
  refine ⟨by decide, ?_⟩
  intro ack l2 rest f herr hlast hatoi
  rw [newConnHandshake, if_neg herr, hlast]
  simp only [hatoi]

/-- Witness for C8: the scenario line and a trailing field that is not an
integer. -/
theorem newConnHandshake_spec_witness :
    newConnHandshake ["CONNECTED <sonic-server v1.3.0>".toList,
      "STARTED search protocol(1) buffer(20000)".toList] = .ok 20000 ∧
    (fieldsFunc sepStarted
        ("STARTED search protocol(1) buffer(abc)".toList)).getLast?
      = some ("abc".toList) ∧
    atoiGo ("abc".toList) = none ∧
    newConnHandshake ["CONNECTED x".toList,
      "STARTED search protocol(1) buffer(abc)".toList] = .err :=
  ⟨newConnHandshake_spec.1, by decide, by decide,
    newConnHandshake_spec.2 ("CONNECTED x".toList)
      ("STARTED search protocol(1) buffer(abc)".toList) [] ("abc".toList)
      (by decide) (by decide) (by decide)⟩

/-- C10: the count/flush reply parsing slices a fixed 7-byte prefix off the
reply; this is safe exactly when a non-error reply is at least 7 bytes
long, and any shorter success line — such as a bare `OK` — makes the slice
panic instead of returning an error. -/
theorem countResponse_spec :
    (∀ r : List Char, ¬ (("ERR ".toList).isPrefixOf r = true) →
      r.length < 7 → countResponse r = .panicked) ∧
    countResponse ("OK".toList) = .panicked ∧
    (∀ r : List Char, 7 ≤ r.length → countResponse r ≠ .panicked) ∧
    countResponse ("RESULT 42".toList) = .ok 42 := by
  refine ⟨?_, by decide, ?_, by decide⟩
  · intro r herr hlen
    rw [countResponse, if_neg herr, if_pos hlen]
  · intro r hlen
    rw [countResponse]
    by_cases herr : ("ERR ".toList).isPrefixOf r = true
    · rw [if_pos herr]
      exact fun h => CountOutcome.noConfusion h
    · rw [if_neg herr, if_neg (by omega)]
      cases atoiGo (r.drop 7) with
      | none => exact fun h => CountOutcome.noConfusion h
      | some n => exact fun h => CountOutcome.noConfusion h

/-- Witness for C10 at a bare `OK` reply (shorter than 7 bytes) and at the
scenario reply `RESULT 42`. -/
theorem countResponse_spec_witness :
    (¬ (("ERR ".toList).isPrefixOf ("OK".toList) = true)) ∧
    ("OK".toList).length < 7 ∧
    countResponse ("OK".toList) = .panicked ∧
    (7 ≤ ("RESULT 42".toList).length) ∧
    countResponse ("RESULT 42".toList) ≠ .panicked :=
  ⟨by decide, by decide,
    countResponse_spec.1 ("OK".toList) (by decide) (by decide),
    by decide,
    countResponse_spec.2.2.1 ("RESULT 42".toList) (by decide)⟩

/-! ## Connection pool (C1, C2, C5, C6)

The pool (src/searchClient.go, second half) is modelled as a pure state
machine.  Connections are immutable records with an identity (Go compares
pointers; `id` plays that role and states are built with distinct ids).
Time is in seconds (`usedAt` is stored as a Unix-seconds integer in Go; the
spec notes that ages are compared at second granularity).  A dial attempt's
result is an explicit `DialOutcome` argument; goroutine spawns (warm-up
dials, the dial prober) are recorded as counters/flags; `waitTurn` is
modelled deterministically: a token is free iff fewer than `poolSize`
checkouts are outstanding, otherwise the wait times out (caller
cancellation is not modelled). -/

structure Conn where
  id : Nat
  usedAt : Int
  createdAt : Int
  pooled : Bool
  bufferedBytes : Nat
  cmdMaxBytes : Nat
  deriving DecidableEq

structure Options where
  poolSize : Nat
  minIdleConns : Nat
  maxConnAge : Int
  poolTimeout : Int
  idleTimeout : Int
  idleCheckFrequency : Int
  deriving DecidableEq

inductive PoolErr where
  | errClosed
  | errPoolTimeout
  | errDial (lastErr : Option String)
  | errConnector (e : String)
  deriving DecidableEq

inductive DialOutcome where
  | dialFail (e : String)
  | connectorFail (e : String)
  | ok (cn : Conn)
  deriving DecidableEq

structure PoolState where
  conns : List Conn
  idleConns : List Conn
  poolSize : Nat
  idleConnsLen : Nat
  usedTokens : Nat
  pendingDials : Nat
  closedIds : List Nat
  hits : Nat
  misses : Nat
  timeouts : Nat
  staleConns : Nat
  closed : Bool
  errsNum : Nat
  lastErr : Option String
  dialAttempts : Nat
  proberSpawned : Bool
  deriving DecidableEq

namespace ConnPool

/-- Embedding of `isStaleConn` (src/searchClient.go lines 643-657). -/
def isStaleConn (opt : Options) (now : Int) (cn : Conn) : Bool :=
  if opt.idleTimeout = 0 ∧ opt.maxConnAge = 0 then false
  else if 0 < opt.idleTimeout ∧ opt.idleTimeout ≤ now - cn.usedAt then true
  else if 0 < opt.maxConnAge ∧ opt.maxConnAge ≤ now - cn.createdAt then true
  else false

/-- The loop body of `checkMinIdleConns` (src/searchClient.go lines
318-335): while capacity and the idle count allow, reserve capacity and
spawn a warm-up dial (recorded in `pendingDials`).  Each iteration
increments `poolSize`, so `opt.poolSize - st.poolSize` iterations always
suffice. -/
def cmicLoop (opt : Options) : Nat → PoolState → PoolState
  | 0, st => st
  | fuel + 1, st =>
    if st.poolSize < opt.poolSize ∧ st.idleConnsLen < opt.minIdleConns then
      cmicLoop opt fuel
        { st with poolSize := st.poolSize + 1,
                  idleConnsLen := st.idleConnsLen + 1,
                  pendingDials := st.pendingDials + 1 }
    else st

def checkMinIdleConns (opt : Options) (st : PoolState) : PoolState :=
  if opt.minIdleConns = 0 then st
  else cmicLoop opt (opt.poolSize - st.poolSize) st

/-- Remove the first occurrence (Go compares pointers; ids stand in) and
report whether one was found. -/
def removeFirst (cn : Conn) : List Conn → List Conn × Bool
  | [] => ([], false)
  | c :: rest =>
    if c.id = cn.id then (rest, true)
    else
      let r := removeFirst cn rest
      (c :: r.1, r.2)

/-- Embedding of `removeConn` (src/searchClient.go lines 508-519). -/
def removeConn (opt : Options) (st : PoolState) (cn : Conn) : PoolState :=
  let r := removeFirst cn st.conns
  if r.2 then
    if cn.pooled then
      checkMinIdleConns opt
        { st with conns := r.1, poolSize := st.poolSize - 1 }
    else { st with conns := r.1 }
  else st

/-- `closeConn` (src/searchClient.go lines 521-526): the `OnClose` hook is
`nil` for both façade clients; closing is recorded in `closedIds`. -/
def closeConn (st : PoolState) (cn : Conn) : PoolState :=
  { st with closedIds := cn.id :: st.closedIds }

def freeTurn (st : PoolState) : PoolState :=
  { st with usedTokens := st.usedTokens - 1 }

/-- Embedding of `Remove` (src/searchClient.go lines 490-494):
`removeConnWithLock`, `freeTurn`, `closeConn`. -/
def Remove (opt : Options) (st : PoolState) (cn : Conn) : PoolState :=
  closeConn (freeTurn (removeConn opt st cn)) cn

/-- Embedding of `CloseConn` (src/searchClient.go lines 497-500). -/
def CloseConn (opt : Options) (st : PoolState) (cn : Conn) : PoolState :=
  closeConn (removeConn opt st cn) cn

/-- Embedding of `Put` (src/searchClient.go lines 270-287). -/
def Put (opt : Options) (st : PoolState) (cn : Conn) : PoolState :=
  if 0 < cn.bufferedBytes then Remove opt st cn
  else if ¬ cn.pooled then Remove opt st cn
  else
    freeTurn
      { st with idleConns := st.idleConns ++ [cn],
                idleConnsLen := st.idleConnsLen + 1 }

/-- Embedding of `popIdle` (src/searchClient.go lines 476-487): most
recently idled connection first. -/
def popIdle (opt : Options) (st : PoolState) : Option Conn × PoolState :=
  match st.idleConns.getLast? with
  | none => (none, st)
  | some cn =>
    (some cn,
      checkMinIdleConns opt
        { st with idleConns := st.idleConns.dropLast,
                  idleConnsLen := st.idleConnsLen - 1 })

/-- Embedding of `dialConn` (src/searchClient.go lines 371-395): closed
check; short-circuit to the last dial error when the failure streak has
reached capacity; otherwise one dial attempt (counted in `dialAttempts`),
recording failures and spawning the prober exactly when the streak hits
capacity; on success the connector runs and the `pooled` flag is set. -/
def dialConn (opt : Options) (st : PoolState) (pooled : Bool)
    (oc : DialOutcome) : Except PoolErr Conn × PoolState :=
  if st.closed then (.error .errClosed, st)
  else if opt.poolSize ≤ st.errsNum then (.error (.errDial st.lastErr), st)
  else
    match oc with
    | .dialFail e =>
      (.error (.errDial (some e)),
        { st with dialAttempts := st.dialAttempts + 1,
                  lastErr := some e,
                  errsNum := st.errsNum + 1,
                  proberSpawned :=
                    st.proberSpawned || (st.errsNum + 1 = opt.poolSize) })
    | .connectorFail e =>
      (.error (.errConnector e),
        { st with dialAttempts := st.dialAttempts + 1 })
    | .ok cn =>
      (.ok { cn with pooled := pooled },
        { st with dialAttempts := st.dialAttempts + 1 })

/-- Embedding of `newConn` (src/searchClient.go lines 351-369). -/
def newConn (opt : Options) (st : PoolState) (pooled : Bool)
    (oc : DialOutcome) : Except PoolErr Conn × PoolState :=
  match dialConn opt st pooled oc with
  | (.error e, st') => (.error e, st')
  | (.ok cn, st') =>
    if pooled ∧ opt.poolSize ≤ st'.poolSize then
      let cn' := { cn with pooled := false }
      (.ok cn', { st' with conns := st'.conns ++ [cn'] })
    else if pooled then
      (.ok cn,
        { st' with conns := st'.conns ++ [cn], poolSize := st'.poolSize + 1 })
    else (.ok cn, { st' with conns := st'.conns ++ [cn] })

/-- The pop-idle loop of `Get` (src/searchClient.go lines 240-256): pop the
most recent idle connection; discard stale ones via `CloseConn` and
continue; stop at the first non-stale one.  Each iteration shortens
`idleConns`, so its length is sufficient fuel. -/
def getLoop (opt : Options) (now : Int) : Nat → PoolState →
    Option Conn × PoolState
  | 0, st => (none, st)
  | fuel + 1, st =>
    match popIdle opt st with
    | (none, st') => (none, st')
    | (some cn, st') =>
      if isStaleConn opt now cn then getLoop opt now fuel (CloseConn opt st' cn)
      else (some cn, st')

/-- Embedding of `Get` (src/searchClient.go lines 227-267). -/
def Get (opt : Options) (st : PoolState) (now : Int) (oc : DialOutcome) :
    Except PoolErr Conn × PoolState :=
  if st.closed then (.error .errClosed, st)
  else if st.usedTokens < opt.poolSize then
    match getLoop opt now
        ({ st with usedTokens := st.usedTokens + 1 } :
          PoolState).idleConns.length
        { st with usedTokens := st.usedTokens + 1 } with
    | (some cn, st2) => (.ok cn, { st2 with hits := st2.hits + 1 })
    | (none, st2) =>
      match newConn opt { st2 with misses := st2.misses + 1 } true oc with
      | (.error e, st4) => (.error e, freeTurn st4)
      | (.ok cn, st4) => (.ok cn, st4)
  else (.error .errPoolTimeout, { st with timeouts := st.timeouts + 1 })

/-- Embedding of `tryDial` (src/searchClient.go lines 397-414), the
once-per-second dial prober, driven by an explicit list of dial outcomes
(the one-second sleeps are abstracted away).  Returns the state and whether
the loop has exited (closed pool or a successful probe, which resets the
failure streak); an exhausted outcome list leaves the prober still
running. -/
def tryDialRun (opt : Options) : PoolState → List (Except String Unit) →
    PoolState × Bool
  | st, [] => (st, false)
  | st, o :: rest =>
    if st.closed then (st, true)
    else
      match o with
      | .error e =>
        tryDialRun opt
          { st with lastErr := some e, dialAttempts := st.dialAttempts + 1 }
          rest
      | .ok _ =>
        ({ st with errsNum := 0, dialAttempts := st.dialAttempts + 1 }, true)

theorem cmicLoop_fields (opt : Options) : ∀ fuel st,
    (cmicLoop opt fuel st).idleConns = st.idleConns ∧
    (cmicLoop opt fuel st).conns = st.conns ∧
    (cmicLoop opt fuel st).usedTokens = st.usedTokens ∧
    (cmicLoop opt fuel st).closedIds = st.closedIds ∧
    (cmicLoop opt fuel st).closed = st.closed ∧
    (cmicLoop opt fuel st).dialAttempts = st.dialAttempts := by
  intro fuel
  induction fuel with
  | zero => intro st; exact ⟨rfl, rfl, rfl, rfl, rfl, rfl⟩
  | succ f ih =>
    intro st
    rw [cmicLoop]
    by_cases h : st.poolSize < opt.poolSize ∧ st.idleConnsLen < opt.minIdleConns
    · rw [if_pos h]
      exact ih _
    · rw [if_neg h]
      exact ⟨rfl, rfl, rfl, rfl, rfl, rfl⟩

theorem checkMinIdleConns_fields (opt : Options) (st : PoolState) :
    (checkMinIdleConns opt st).idleConns = st.idleConns ∧
    (checkMinIdleConns opt st).conns = st.conns ∧
    (checkMinIdleConns opt st).usedTokens = st.usedTokens ∧
    (checkMinIdleConns opt st).closedIds = st.closedIds ∧
    (checkMinIdleConns opt st).closed = st.closed ∧
    (checkMinIdleConns opt st).dialAttempts = st.dialAttempts := by
  rw [checkMinIdleConns]
  by_cases h : opt.minIdleConns = 0
  · rw [if_pos h]; exact ⟨rfl, rfl, rfl, rfl, rfl, rfl⟩
  · rw [if_neg h]; exact cmicLoop_fields opt _ st

theorem removeConn_fields (opt : Options) (st : PoolState) (cn : Conn) :
    (removeConn opt st cn).idleConns = st.idleConns ∧
    (removeConn opt st cn).usedTokens = st.usedTokens ∧
    (removeConn opt st cn).closedIds = st.closedIds := by
  rw [removeConn]
  by_cases h2 : (removeFirst cn st.conns).2
  · rw [if_pos h2]
    by_cases hp : cn.pooled
    · rw [if_pos hp]
      obtain ⟨h1, _, h3, h4, _, _⟩ := checkMinIdleConns_fields opt
        { st with conns := (removeFirst cn st.conns).1,
                  poolSize := st.poolSize - 1 }
      exact ⟨h1, h3, h4⟩
    · rw [if_neg hp]
      exact ⟨rfl, rfl, rfl⟩
  · rw [if_neg h2]
    exact ⟨rfl, rfl, rfl⟩

theorem Remove_fields (opt : Options) (st : PoolState) (cn : Conn) :
    (Remove opt st cn).idleConns = st.idleConns ∧
    (Remove opt st cn).usedTokens = st.usedTokens - 1 ∧
    (Remove opt st cn).closedIds = cn.id :: st.closedIds := by
  obtain ⟨h1, h2, h3⟩ := removeConn_fields opt st cn
  refine ⟨h1, ?_, ?_⟩
  · rw [Remove, closeConn, freeTurn]
    simp only
    rw [h2]
  · rw [Remove, closeConn, freeTurn]
    simp only
    rw [h3]

theorem CloseConn_idle (opt : Options) (st : PoolState) (cn : Conn) :
    (CloseConn opt st cn).idleConns = st.idleConns :=
  (removeConn_fields opt st cn).1

theorem removeFirst_false (cn : Conn) : ∀ l : List Conn,
    (removeFirst cn l).2 = false →
    (removeFirst cn l).1 = l ∧ cn.id ∉ l.map Conn.id := by
  intro l
  induction l with
  | nil => intro _; exact ⟨rfl, by simp⟩
  | cons c rest ih =>
    intro h
    rw [removeFirst] at h ⊢
    by_cases hc : c.id = cn.id
    · rw [if_pos hc] at h
      exact absurd h (by simp)
    · rw [if_neg hc] at h ⊢
      simp only at h
      obtain ⟨h1, h2⟩ := ih h
      refine ⟨by simp [h1], ?_⟩
      simp only [List.map_cons, List.mem_cons]
      rintro (hx1 | hm)
      · exact hc hx1.symm
      · exact h2 hm

theorem removeFirst_nodup (cn : Conn) : ∀ l : List Conn,
    (l.map Conn.id).Nodup →
    cn.id ∉ ((removeFirst cn l).1.map Conn.id) := by
  intro l
  induction l with
  | nil => intro _; simp [removeFirst]
  | cons c rest ih =>
    intro hnd
    rw [List.map_cons, List.nodup_cons] at hnd
    rw [removeFirst]
    by_cases hc : c.id = cn.id
    · rw [if_pos hc]
      rw [← hc]
      exact hnd.1
    · rw [if_neg hc]
      simp only [List.map_cons, List.mem_cons]
      rintro (h1 | h2)
      · exact hc h1.symm
      · exact ih hnd.2 h2

theorem removeConn_not_mem (opt : Options) (st : PoolState) (cn : Conn)
    (hnd : (st.conns.map Conn.id).Nodup) :
    cn.id ∉ ((removeConn opt st cn).conns.map Conn.id) := by
  rw [removeConn]
  by_cases h2 : (removeFirst cn st.conns).2
  · rw [if_pos h2]
    by_cases hp : cn.pooled
    · rw [if_pos hp]
      rw [(checkMinIdleConns_fields opt _).2.1]
      exact removeFirst_nodup cn st.conns hnd
    · rw [if_neg hp]
      exact removeFirst_nodup cn st.conns hnd
  · rw [if_neg h2]
    exact (removeFirst_false cn st.conns (by simpa using h2)).2

theorem Remove_not_mem (opt : Options) (st : PoolState) (cn : Conn)
    (hnd : (st.conns.map Conn.id).Nodup) :
    cn.id ∉ ((Remove opt st cn).conns.map Conn.id) := by
  rw [Remove, closeConn, freeTurn]
  exact removeConn_not_mem opt st cn hnd

theorem getLoop_mem (opt : Options) (now : Int) : ∀ (fuel : Nat)
    (st : PoolState) (c : Conn) (st2 : PoolState),
    getLoop opt now fuel st = (some c, st2) → c ∈ st.idleConns := by
  intro fuel
  induction fuel with
  | zero =>
    intro st c st2 h
    rw [getLoop] at h
    exact absurd h (by simp)
  | succ f ih =>
    intro st c st2 h
    rw [getLoop] at h
    cases hl : st.idleConns.getLast? with
    | none =>
      rw [popIdle, hl] at h
      exact absurd h (by simp)
    | some cn =>
      rw [popIdle, hl] at h
      simp only at h
      by_cases hst : isStaleConn opt now cn = true
      · rw [if_pos hst] at h
        have hmem := ih _ _ _ h
        rw [CloseConn_idle] at hmem
        rw [(checkMinIdleConns_fields opt _).1] at hmem
        simp only at hmem
        exact (List.dropLast_sublist _).subset hmem
      · rw [if_neg hst] at h
        have hc : cn = c := by
          simpa using congrArg Prod.fst h
        rw [← hc]
        exact List.mem_of_getLast?_eq_some hl

theorem dialConn_ok_source (opt : Options) (st : PoolState) (pooled : Bool)
    (oc : DialOutcome) (cn : Conn)
    (h : (dialConn opt st pooled oc).1 = .ok cn) :
    ∃ d, oc = .ok d ∧ cn = { d with pooled := pooled } := by
  rw [dialConn.eq_def] at h
  by_cases hc : st.closed
  · rw [if_pos hc] at h; exact absurd h (by simp)
  · rw [if_neg hc] at h
    by_cases he : opt.poolSize ≤ st.errsNum
    · rw [if_pos he] at h; exact absurd h (by simp)
    · rw [if_neg he] at h
      cases oc with
      | dialFail e => exact absurd h (by simp)
      | connectorFail e => exact absurd h (by simp)
      | ok d =>
        refine ⟨d, rfl, ?_⟩
        simpa using h.symm

theorem newConn_ok_source (opt : Options) (st : PoolState) (pooled : Bool)
    (oc : DialOutcome) (cn : Conn)
    (h : (newConn opt st pooled oc).1 = .ok cn) :
    ∃ d, oc = .ok d ∧ cn.id = d.id ∧ cn.usedAt = d.usedAt := by
  rw [newConn.eq_def] at h
  rcases hdc : dialConn opt st pooled oc with ⟨res, st'⟩
  rw [hdc] at h
  cases res with
  | error e => exact absurd h (by simp)
  | ok cn0 =>
    have hsrc := dialConn_ok_source opt st pooled oc cn0 (by rw [hdc])
    obtain ⟨d, hoc, hcn0⟩ := hsrc
    simp only at h
    by_cases hov : pooled ∧ opt.poolSize ≤ st'.poolSize
    · rw [if_pos hov] at h
      simp only at h
      have : cn = { cn0 with pooled := false } := by simpa using h.symm
      exact ⟨d, hoc, by rw [this, hcn0], by rw [this, hcn0]⟩
    · rw [if_neg hov] at h
      by_cases hp : pooled
      · rw [if_pos hp] at h
        have : cn = cn0 := by simpa using h.symm
        exact ⟨d, hoc, by rw [this, hcn0], by rw [this, hcn0]⟩
      · rw [if_neg hp] at h
        have : cn = cn0 := by simpa using h.symm
        exact ⟨d, hoc, by rw [this, hcn0], by rw [this, hcn0]⟩

/-- Every connection handed out by `Get` is either taken verbatim from the
idle set or is the one the dial produced (with only its `pooled` flag
adjusted): `Get` never touches `usedAt`. -/
theorem get_ok_source (opt : Options) (st : PoolState) (now : Int)
    (oc : DialOutcome) (c : Conn)
    (h : (Get opt st now oc).1 = .ok c) :
    c ∈ st.idleConns ∨ ∃ d, oc = .ok d ∧ c.id = d.id ∧ c.usedAt = d.usedAt := by
  rw [Get] at h
  by_cases hc : st.closed
  · rw [if_pos hc] at h; exact absurd h (by simp)
  · rw [if_neg hc] at h
    by_cases ht : st.usedTokens < opt.poolSize
    · rw [if_pos ht] at h
      simp only at h
      rcases hgl : getLoop opt now
          ({ st with usedTokens := st.usedTokens + 1 } : PoolState).idleConns.length
          { st with usedTokens := st.usedTokens + 1 } with ⟨r, st2⟩
      rw [hgl] at h
      cases r with
      | some cn =>
        simp only at h
        have hcc : cn = c := by simpa using h
        left
        have hmem := getLoop_mem opt now _ _ _ _ hgl
        rw [← hcc]
        simpa using hmem
      | none =>
        simp only at h
        rcases hnc : newConn opt
            { st2 with misses := st2.misses + 1 } true oc with ⟨res4, st4⟩
        rw [hnc] at h
        cases res4 with
        | error e => exact absurd h (by simp)
        | ok cn4 =>
          have : cn4 = c := by simpa using h
          right
          exact this ▸ newConn_ok_source opt _ true oc cn4 (by rw [hnc])
    · rw [if_neg ht] at h
      exact absurd h (by simp)

end ConnPool

/-! ## Façade operations (C1)

`SearchClient.Query` (src/searchClient.go lines 66-106) and
`IngestClient.Push` (src/unnamed/part_000 lines 86-127) acquire a
connection with `pool.Get` and then run the protocol exchange.  Socket I/O
outcomes are supplied as arguments: `wr` is the write error (if any), the
`rd` values are read results.  Each embedded operation returns its result
together with the pool state it leaves behind. -/

inductive FacadeErr where
  | pool (e : PoolErr)
  | io (e : String)
  deriving DecidableEq

inductive QueryResult where
  | ok (results : List (List Char))
  | err (e : FacadeErr)
  | panicked
  deriving DecidableEq

/-- Embedding of `SearchClient.Query`: `Get`, write the command, read the
`PENDING` line, read the event line, parse it with `getSearchResults`.
Every return path leaves the pool exactly as `Get` left it. -/
def facadeQuery (opt : Options) (st : PoolState) (now : Int)
    (oc : DialOutcome) (wr : Option String)
    (rd1 rd2 : Except String (List Char)) : QueryResult × PoolState :=
  match ConnPool.Get opt st now oc with
  | (.error e, st') => (.err (.pool e), st')
  | (.ok _conn, st') =>
    match wr with
    | some e => (.err (.io e), st')
    | none =>
      match rd1 with
      | .error e => (.err (.io e), st')
      | .ok _ =>
        match rd2 with
        | .error e => (.err (.io e), st')
        | .ok line =>
          match getSearchResults line ("QUERY".toList) with
          | none => (.panicked, st')
          | some rs => (.ok rs, st')

inductive PushResult where
  | ok
  | err (e : FacadeErr)
  | hangs
  deriving DecidableEq

/-- The byte-level view of `PATTERNS` (`\` `0x5C`, newline `0x0A`,
`"` `0x22`; `n` is `0x6E`), as applied by `IngestClient.Push` before
chunking. -/
def PATTERNSB : List (List Nat × List Nat) :=
  [([0x5C], [0x5C, 0x5C]), ([0x0A], [0x5C, 0x6E]), ([0x22], [0x5C, 0x22])]

def patternReplaceB (text : List Nat) : List Nat :=
  PATTERNSB.foldl (fun t p => strReplace p.1 p.2 t) text

/-- The per-chunk write/acknowledge loop of `Push`: each list element is
the (write error, read error) outcome for one chunk; the first error
aborts the loop. -/
def pushChunks : List (List Nat) → List (Option String × Option String) →
    PushResult
  | [], _ => .ok
  | _ :: rest, ios =>
    match ios.headD (none, none) with
    | (some e, _) => .err (.io e)
    | (none, some e) => .err (.io e)
    | (none, none) => pushChunks rest ios.tail

/-- Embedding of `IngestClient.Push`: `Get`, escape, chunk with
`conn.splitText` (target `cmdMaxBytes/2`; `hangs` when that loop does not
terminate), then send each chunk.  Every return path leaves the pool
exactly as `Get` left it. -/
def facadePush (opt : Options) (st : PoolState) (now : Int)
    (oc : DialOutcome) (textB : List Nat) (fuel : Nat)
    (ios : List (Option String × Option String)) : PushResult × PoolState :=
  match ConnPool.Get opt st now oc with
  | (.error e, st') => (.err (.pool e), st')
  | (.ok conn, st') =>
    match splitText (patternReplaceB textB) (conn.cmdMaxBytes / 2) fuel with
    | none => (.hangs, st')
    | some chunks => (pushChunks chunks ios, st')

/-- Capacity-1 pool options with warm-up and staleness disabled. -/
def optOne : Options :=
  { poolSize := 1, minIdleConns := 0, maxConnAge := 0, poolTimeout := 2,
    idleTimeout := 0, idleCheckFrequency := 2 }

/-- A freshly created pool state. -/
def stEmpty : PoolState :=
  { conns := [], idleConns := [], poolSize := 0, idleConnsLen := 0,
    usedTokens := 0, pendingDials := 0, closedIds := [], hits := 0,
    misses := 0, timeouts := 0, staleConns := 0, closed := false,
    errsNum := 0, lastErr := none, dialAttempts := 0, proberSpawned := false }

/-- The connection produced by a successful dial in the C1 scenario. -/
def cnFresh : Conn :=
  { id := 7, usedAt := 0, createdAt := 0, pooled := true,
    bufferedBytes := 0, cmdMaxBytes := 20000 }

/-- C1: contrary to the claim, no façade operation ever calls `Put` or
`Remove`: on every path — success, write error, read error — the pool
state after `SearchClient.Query` or `IngestClient.Push` is exactly the
state `Get` left behind, so the connection stays checked out and its
admission token stays held forever.  Concretely, on a capacity-1 pool one
successful `Query` leaves the token held (`usedTokens = 1`, nothing idle),
and a second operation fails with the pool-timeout error. -/
theorem facade_ops_never_put_or_remove :
    (∀ opt st now oc wr rd1 rd2,
      (facadeQuery opt st now oc wr rd1 rd2).2
        = (ConnPool.Get opt st now oc).2) ∧
    (∀ opt st now oc textB fuel ios,
      (facadePush opt st now oc textB fuel ios).2
        = (ConnPool.Get opt st now oc).2) ∧
    (facadeQuery optOne stEmpty 0 (.ok cnFresh) none
        (.ok ("PENDING abc123".toList))
        (.ok ("EVENT QUERY abc123 id1".toList))).1
      = .ok ["id1".toList] ∧
    (facadeQuery optOne stEmpty 0 (.ok cnFresh) none
        (.ok ("PENDING abc123".toList))
        (.ok ("EVENT QUERY abc123 id1".toList))).2.usedTokens = 1 ∧
    (facadeQuery optOne stEmpty 0 (.ok cnFresh) none
        (.ok ("PENDING abc123".toList))
        (.ok ("EVENT QUERY abc123 id1".toList))).2.idleConns = [] ∧
    (facadeQuery optOne
        (facadeQuery optOne stEmpty 0 (.ok cnFresh) none
          (.ok ("PENDING abc123".toList))
          (.ok ("EVENT QUERY abc123 id1".toList))).2
        0 (.ok cnFresh) none (.ok ("PENDING x".toList))
        (.ok ("EVENT QUERY x id2".toList))).1
      = .err (.pool .errPoolTimeout) := by
  refine ⟨?_, ?_, by decide, by decide, by decide, by decide⟩
  · intro opt st now oc wr rd1 rd2
    rcases hres : ConnPool.Get opt st now oc with ⟨res, st'⟩
    simp only [facadeQuery, hres]
    cases res with
    | error e => rfl
    | ok c =>
      cases wr with
      | some e => rfl
      | none =>
        cases rd1 with
        | error e => rfl
        | ok x =>
          cases rd2 with
          | error e => rfl
          | ok line =>
            dsimp only
            cases hgr : getSearchResults line ("QUERY".toList) with
            | none => rfl
            | some rs => rfl
  · intro opt st now oc textB fuel ios
    rcases hres : ConnPool.Get opt st now oc with ⟨res, st'⟩
    simp only [facadePush, hres]
    cases res with
    | error e => rfl
    | ok c =>
      dsimp only
      cases hsp : splitText (patternReplaceB textB) (c.cmdMaxBytes / 2) fuel with
      | none => rfl
      | some chunks => rfl

/-! ## Claim theorems about the pool (C2, C5, C6) -/

/-- Pool options with the default sizing of both façade clients except that
warm-up is disabled (`minIdleConns = 0`), so the background dials it would
spawn do not obscure the concrete evaluation. -/
def optC2 : Options :=
  { poolSize := 40, minIdleConns := 0, maxConnAge := 60, poolTimeout := 2,
    idleTimeout := 30, idleCheckFrequency := 2 }

/-- An idle connection constructed (and last used) at time 0. -/
def cnIdle : Conn :=
  { id := 1, usedAt := 0, createdAt := 0, pooled := true,
    bufferedBytes := 0, cmdMaxBytes := 20000 }

/-- A pool holding `cnIdle` in its idle set. -/
def stC2 : PoolState :=
  { conns := [cnIdle], idleConns := [cnIdle], poolSize := 1,
    idleConnsLen := 1, usedTokens := 0, pendingDials := 0, closedIds := [],
    hits := 0, misses := 0, timeouts := 0, staleConns := 0, closed := false,
    errsNum := 0, lastErr := none, dialAttempts := 0, proberSpawned := false }

/-- C2: contrary to the claim, `Get` never updates `usedAt`.  Every
connection it returns is either taken verbatim from the idle set (all
fields, `usedAt` included, unchanged — the only `setUsedAt` call in the
code is in `NewConn`) or freshly dialed.  Concretely: a connection created
at time 0 and acquired from the idle set at time 10 still carries
`usedAt = 0`, not the acquisition time 10, so the idle-timeout check keeps
measuring from construction. -/
theorem get_does_not_update_usedAt :
    (∀ opt st now oc c, (ConnPool.Get opt st now oc).1 = .ok c →
      c ∈ st.idleConns ∨
        ∃ d, oc = .ok d ∧ c.id = d.id ∧ c.usedAt = d.usedAt) ∧
    (ConnPool.Get optC2 stC2 10 (.dialFail "unused")).1 = .ok cnIdle ∧
    cnIdle.usedAt = 0 ∧ ¬ (cnIdle.usedAt = 10) := by
  refine ⟨?_, by decide, by decide, by decide⟩
  intro opt st now oc c h
  exact ConnPool.get_ok_source opt st now oc c h

/-- Witness for C2: the concrete acquisition at time 10. -/
theorem get_does_not_update_usedAt_witness :
    (ConnPool.Get optC2 stC2 10 (.dialFail "unused")).1 = .ok cnIdle ∧
    (cnIdle ∈ stC2.idleConns ∨
      ∃ d, DialOutcome.dialFail "unused" = .ok d ∧
        cnIdle.id = d.id ∧ cnIdle.usedAt = d.usedAt) :=
  ⟨by decide,
    get_does_not_update_usedAt.1 optC2 stC2 10 (.dialFail "unused") cnIdle
      (by decide)⟩

/-- A checked-out connection with five unread buffered bytes. -/
def cnBuf : Conn :=
  { id := 3, usedAt := 0, createdAt := 0, pooled := true,
    bufferedBytes := 5, cmdMaxBytes := 20000 }

/-- A fresh dial outcome with an id distinct from `cnBuf`. -/
def cnNine : Conn :=
  { id := 9, usedAt := 1, createdAt := 1, pooled := true,
    bufferedBytes := 0, cmdMaxBytes := 20000 }

/-- A capacity-1 pool with `cnBuf` checked out (token held, nothing
idle). -/
def stPut : PoolState :=
  { conns := [cnBuf], idleConns := [], poolSize := 1, idleConnsLen := 0,
    usedTokens := 1, pendingDials := 0, closedIds := [], hits := 1,
    misses := 0, timeouts := 0, staleConns := 0, closed := false,
    errsNum := 0, lastErr := none, dialAttempts := 0, proberSpawned := false }

/-- C5: `Put` on a connection with unread buffered bytes is exactly
`Remove` — the connection leaves the owned set, is closed, and is never
appended to the idle set, so no later `Get` can return it; `Put` on an
overflow (non-pooled) connection is likewise `Remove`; otherwise `Put`
appends the connection to the idle set and releases its admission
token. -/
theorem put_contract (opt : Options) (st : PoolState) (cn : Conn) :
    (0 < cn.bufferedBytes →
      ConnPool.Put opt st cn = ConnPool.Remove opt st cn ∧
      (ConnPool.Put opt st cn).idleConns = st.idleConns ∧
      cn.id ∈ (ConnPool.Put opt st cn).closedIds ∧
      ((st.conns.map Conn.id).Nodup →
        cn.id ∉ ((ConnPool.Put opt st cn).conns.map Conn.id))) ∧
    (cn.bufferedBytes = 0 → cn.pooled = false →
      ConnPool.Put opt st cn = ConnPool.Remove opt st cn) ∧
    (cn.bufferedBytes = 0 → cn.pooled = true →
      (ConnPool.Put opt st cn).idleConns = st.idleConns ++ [cn] ∧
      (ConnPool.Put opt st cn).usedTokens = st.usedTokens - 1 ∧
      (ConnPool.Put opt st cn).conns = st.conns) ∧
    (0 < cn.bufferedBytes → cn.id ∉ st.idleConns.map Conn.id →
      ∀ now oc c, (∀ d, oc = .ok d → d.id ≠ cn.id) →
        (ConnPool.Get opt (ConnPool.Put opt st cn) now oc).1 = .ok c →
        c.id ≠ cn.id) := by
  refine ⟨?_, ?_, ?_, ?_⟩
  · intro hbuf
    have hpr : ConnPool.Put opt st cn = ConnPool.Remove opt st cn := by
      rw [ConnPool.Put, if_pos hbuf]
    refine ⟨hpr, ?_, ?_, ?_⟩
    · rw [hpr]
      exact (ConnPool.Remove_fields opt st cn).1
    · rw [hpr, (ConnPool.Remove_fields opt st cn).2.2]
      exact List.mem_cons_self _ _
    · intro hnd
      rw [hpr]
      exact ConnPool.Remove_not_mem opt st cn hnd
  · intro h0 hp
    rw [ConnPool.Put, if_neg (by omega), if_pos (by simp [hp])]
  · intro h0 hp
    rw [ConnPool.Put, if_neg (by omega), if_neg (by simp [hp])]
    exact ⟨rfl, rfl, rfl⟩
  · intro hbuf hid now oc c hoc hget
    have hpr : ConnPool.Put opt st cn = ConnPool.Remove opt st cn := by
      rw [ConnPool.Put, if_pos hbuf]
    have hidle : (ConnPool.Put opt st cn).idleConns = st.idleConns := by
      rw [hpr]
      exact (ConnPool.Remove_fields opt st cn).1
    rcases ConnPool.get_ok_source opt _ now oc c hget with hmem | ⟨d, hd, hidc, _⟩
    · rw [hidle] at hmem
      intro hceq
      exact hid (hceq ▸ List.mem_map_of_mem Conn.id hmem)
    · intro hceq
      exact hoc d hd (hidc ▸ hceq)

/-- Witness for C5: putting back the buffered connection discards it, and
a follow-up `Get` dials a fresh connection instead of returning it. -/
theorem put_contract_witness :
    (0 < cnBuf.bufferedBytes) ∧
    ConnPool.Put optOne stPut cnBuf = ConnPool.Remove optOne stPut cnBuf ∧
    (ConnPool.Put optOne stPut cnBuf).idleConns = stPut.idleConns ∧
    cnBuf.id ∈ (ConnPool.Put optOne stPut cnBuf).closedIds ∧
    cnBuf.id ∉ ((ConnPool.Put optOne stPut cnBuf).conns.map Conn.id) ∧
    (ConnPool.Get optOne (ConnPool.Put optOne stPut cnBuf) 0
        (.ok cnNine)).1 = .ok cnNine ∧
    cnNine.id ≠ cnBuf.id := by
  have h1 := (put_contract optOne stPut cnBuf).1 (by decide)
  refine ⟨by decide, h1.1, h1.2.1, h1.2.2.1, h1.2.2.2 (by decide), by decide, ?_⟩
  exact (put_contract optOne stPut cnBuf).2.2.2 (by decide) (by decide)
    0 (.ok cnNine) cnNine
    (by
      intro d hd
      injection hd with h
      rw [← h]
      decide)
    (by decide)

/-- Default pool options of both façade clients. -/
def opt40 : Options :=
  { poolSize := 40, minIdleConns := 10, maxConnAge := 60, poolTimeout := 2,
    idleTimeout := 30, idleCheckFrequency := 2 }

/-- A pool that has seen three consecutive dial failures. -/
def stErr3 : PoolState :=
  { conns := [], idleConns := [], poolSize := 0, idleConnsLen := 0,
    usedTokens := 0, pendingDials := 0, closedIds := [], hits := 0,
    misses := 0, timeouts := 0, staleConns := 0, closed := false,
    errsNum := 3, lastErr := some "dial tcp: connection refused",
    dialAttempts := 3, proberSpawned := false }

/-- A pool whose dial-failure streak has reached its capacity of 40. -/
def stErr40 : PoolState :=
  { conns := [], idleConns := [], poolSize := 0, idleConnsLen := 0,
    usedTokens := 0, pendingDials := 0, closedIds := [], hits := 0,
    misses := 0, timeouts := 0, staleConns := 0, closed := false,
    errsNum := 40, lastErr := some "dial tcp: connection refused",
    dialAttempts := 40, proberSpawned := true }

/-- The connection produced by a successful dial while the streak is 3. -/
def cnProbe : Conn :=
  { id := 11, usedAt := 5, createdAt := 5, pooled := true,
    bufferedBytes := 0, cmdMaxBytes := 20000 }

/-- C6 (amended): each dial failure increments the streak, records the
error and spawns the prober exactly when the streak reaches the pool's
capacity; at or above capacity every dial attempt (`Get`'s and the warm-up
path's, both via `dialConn`) returns the last recorded dial error without
dialing (`dialAttempts` unchanged); the once-per-second prober (sleep
abstracted) retries until a dial succeeds and then — and only then —
resets the streak to zero: a successful dial inside `dialConn` itself
leaves the streak unchanged (see the counterexample). -/
theorem dial_backoff_spec :
    (∀ opt st pooled e, st.closed = false → st.errsNum < opt.poolSize →
      (ConnPool.dialConn opt st pooled (.dialFail e)).1
        = .error (.errDial (some e)) ∧
      (ConnPool.dialConn opt st pooled (.dialFail e)).2.errsNum
        = st.errsNum + 1 ∧
      (ConnPool.dialConn opt st pooled (.dialFail e)).2.lastErr = some e ∧
      (ConnPool.dialConn opt st pooled (.dialFail e)).2.dialAttempts
        = st.dialAttempts + 1 ∧
      (ConnPool.dialConn opt st pooled (.dialFail e)).2.proberSpawned
        = (st.proberSpawned || decide (st.errsNum + 1 = opt.poolSize))) ∧
    (∀ opt st pooled oc, st.closed = false → opt.poolSize ≤ st.errsNum →
      ConnPool.dialConn opt st pooled oc
        = (.error (.errDial st.lastErr), st)) ∧
    (∀ opt st pooled cn, st.closed = false → st.errsNum < opt.poolSize →
      ConnPool.dialConn opt st pooled (.ok cn)
        = (.ok { cn with pooled := pooled },
            { st with dialAttempts := st.dialAttempts + 1 })) ∧
    (∀ opt st (fails : List String) rest, st.closed = false →
      (ConnPool.tryDialRun opt st
          (fails.map Except.error ++ .ok () :: rest)).1.errsNum = 0 ∧
      (ConnPool.tryDialRun opt st
          (fails.map Except.error ++ .ok () :: rest)).2 = true) ∧
    (∀ opt st now oc, st.closed = false → st.usedTokens < opt.poolSize →
      st.idleConns = [] → opt.poolSize ≤ st.errsNum →
      (ConnPool.Get opt st now oc).1 = .error (.errDial st.lastErr) ∧
      (ConnPool.Get opt st now oc).2.dialAttempts = st.dialAttempts) := by
  refine ⟨?_, ?_, ?_, ?_, ?_⟩
  · intro opt st pooled e hcl he
    rw [ConnPool.dialConn.eq_def, if_neg (by simp [hcl]), if_neg (by omega)]
    exact ⟨rfl, rfl, rfl, rfl, rfl⟩
  · intro opt st pooled oc hcl he
    rw [ConnPool.dialConn.eq_def, if_neg (by simp [hcl]), if_pos he]
  · intro opt st pooled cn hcl he
    rw [ConnPool.dialConn.eq_def, if_neg (by simp [hcl]), if_neg (by omega)]
  · intro opt st fails rest hcl
    induction fails generalizing st with
    | nil =>
      rw [List.map_nil, List.nil_append, ConnPool.tryDialRun,
        if_neg (by simp [hcl])]
      exact ⟨rfl, rfl⟩
    | cons e fs ih =>
      rw [List.map_cons, List.cons_append, ConnPool.tryDialRun,
        if_neg (by simp [hcl])]
      exact ih _ hcl
  · intro opt st now oc hcl ht hidle he
    rw [ConnPool.Get, if_neg (by simp [hcl]), if_pos ht]
    have h0 : ({ st with usedTokens := st.usedTokens + 1 } :
        PoolState).idleConns.length = 0 := by
      simp [hidle]
    rw [h0]
    have hb : ConnPool.dialConn opt
        { st with usedTokens := st.usedTokens + 1, misses := st.misses + 1 }
        true oc
        = (.error (.errDial st.lastErr),
            { st with usedTokens := st.usedTokens + 1,
                      misses := st.misses + 1 }) := by
      rw [ConnPool.dialConn.eq_def, if_neg (by simp [hcl]), if_pos he]
    rw [ConnPool.getLoop]
    dsimp only
    rw [ConnPool.newConn.eq_def, hb]
    exact ⟨rfl, rfl⟩

/-- C6 counterexample: the claim says the failure streak is reset to zero
on any successful dial, but a successful dial inside `dialConn` leaves the
streak untouched (only the background prober `tryDial` resets it): with a
streak of 3, a successful dial still leaves it at 3. -/
theorem dial_success_does_not_reset_streak :
    (ConnPool.dialConn opt40 stErr3 true (.ok cnProbe)).1
      = .ok { cnProbe with pooled := true } ∧
    (ConnPool.dialConn opt40 stErr3 true (.ok cnProbe)).2.errsNum = 3 ∧
    ¬ ((ConnPool.dialConn opt40 stErr3 true (.ok cnProbe)).2.errsNum = 0) := by
  decide

/-- Witness for C6 at concrete states: a failure at streak 3, the
short-circuit and `Get` fail-fast at streak 40, and a prober run that ends
in a success and resets the streak. -/
theorem dial_backoff_spec_witness :
    (ConnPool.dialConn opt40 stErr3 true (.dialFail "refused")).2.errsNum
      = stErr3.errsNum + 1 ∧
    ConnPool.dialConn opt40 stErr40 true (.dialFail "x")
      = (.error (.errDial stErr40.lastErr), stErr40) ∧
    (ConnPool.tryDialRun opt40 stErr40
        ((["e1"].map Except.error) ++ .ok () :: [])).1.errsNum = 0 ∧
    (ConnPool.Get opt40 stErr40 0 (.dialFail "x")).1
      = .error (.errDial stErr40.lastErr) ∧
    (ConnPool.Get opt40 stErr40 0 (.dialFail "x")).2.dialAttempts
      = stErr40.dialAttempts :=
  ⟨(dial_backoff_spec.1 opt40 stErr3 true "refused" (by decide)
      (by decide)).2.1,
    dial_backoff_spec.2.1 opt40 stErr40 true (.dialFail "x") (by decide)
      (by decide),
    (dial_backoff_spec.2.2.2.1 opt40 stErr40 ["e1"] [] (by decide)).1,
    (dial_backoff_spec.2.2.2.2 opt40 stErr40 0 (.dialFail "x") (by decide)
      (by decide) (by decide) (by decide)).1,
    (dial_backoff_spec.2.2.2.2 opt40 stErr40 0 (.dialFail "x") (by decide)
      (by decide) (by decide) (by decide)).2⟩

end Sonic
